import Mathlib

/-!
Formal model of the Material-Review pipeline (src/material_review/app.py).

The pipeline's numeric cells are modelled with exact rationals, pandas NaN
cells with `Option`, dataframes with lists of records, and Python dicts with
association lists whose lookup keeps the last binding (Python dict updates
overwrite).  String ordering is by code points, as in Python.  Each definition
names the source function it embeds.
-/

namespace MaterialReview

/-- Whitespace trimming of a character list from both ends. -/
def charStrip (l : List Char) : List Char :=
  List.rdropWhile (·.isWhitespace) (l.dropWhile (·.isWhitespace))

/-- Python `str.strip()` (and pandas `.str.strip()`): drop whitespace from both
ends of a string.  Implemented structurally over the character list. -/
def stripStr (s : String) : String :=
  String.mk (charStrip s.toList)

/-- Reading of a possibly-missing numeric cell after `fillna(0)`. -/
def orZero (x : Option ℚ) : ℚ := x.getD 0

/-- One stock record as produced by `fetch_stock_for_articles` (columns
`Article`, `QOH`, `Allocation`, `QCHold_QCI`, `QCHold_QCH`; the description
and item columns play no role in allocation).  `none` models a NaN cell. -/
structure StockRec where
  article : String
  qoh : Option ℚ
  allocation : Option ℚ
  qcHoldQCI : Option ℚ
  qcHoldQCH : Option ℚ
deriving Repr, DecidableEq

/-- The derived available quantity computed at the top of `allocate_by_delivery`
(app.py lines 1711-1716): `QOH.fillna(0) - QCHold_QCI.fillna(0) -
QCHold_QCH.fillna(0)`. -/
def availQty (r : StockRec) : ℚ :=
  orZero r.qoh - orZero r.qcHoldQCI - orZero r.qcHoldQCH

/-- Availability formula as the specification words it (spec section 3, Stock
Record): on-hand minus allocated-elsewhere minus both quality-hold quantities.
Stated from the spec only, for comparison with `availQty`. -/
def specAvailQty (r : StockRec) : ℚ :=
  orZero r.qoh - orZero r.allocation - orZero r.qcHoldQCI - orZero r.qcHoldQCH

/-- The `avail_map` of `allocate_by_delivery` (line 1717) together with the
`remaining.get(art, 0.0)` default (line 1729): keys are stripped article
strings, a later stock row overwrites an earlier one with the same key
(Python dict comprehension), and an article absent from the snapshot has
availability zero. -/
def availOf (stock : List StockRec) (art : String) : ℚ :=
  match (stock.filter (fun r => stripStr r.article == art)).getLast? with
  | some r => availQty r
  | none => 0

/-- One demand record as built by `build_component_demands`: PO-line key,
delivery date (already passed through `pd.to_datetime(..., errors="coerce")`,
so `none` models NaT from a missing or unparseable date), component category,
component article and the needed quantity. -/
structure DemandRec where
  poLine : String
  deliveryDate : Option ℕ
  component : String
  componentArticle : String
  needQty : ℚ
deriving Repr, DecidableEq

/-- Rank of a delivery date for sorting: pandas `sort_values` with the default
`na_position="last"` places NaT after every real date. -/
def dateKey : Option ℕ → ℕ ×ₗ ℕ
  | none => toLex (1, 0)
  | some d => toLex (0, d)

/-- The composite sort key of `allocate_by_delivery` (line 1721):
`["DeliveryDate_sort", "PO-Line", "ComponentArticle"]`, lexicographically,
with the string columns compared by code points as Python compares them. -/
def sortKey (d : DemandRec) : (ℕ ×ₗ ℕ) ×ₗ List Char ×ₗ List Char :=
  toLex (dateKey d.deliveryDate, toLex (d.poLine.toList, d.componentArticle.toList))

/-- Comparison relation used to sort demand records. -/
def demandLe (a b : DemandRec) : Prop := sortKey a ≤ sortKey b

instance : DecidableRel demandLe :=
  fun a b => inferInstanceAs (Decidable (sortKey a ≤ sortKey b))

instance : IsTotal DemandRec demandLe :=
  ⟨fun a b => le_total (sortKey a) (sortKey b)⟩

instance : IsTrans DemandRec demandLe :=
  ⟨fun _ _ _ h1 h2 => le_trans h1 h2⟩

/-- The stable sort `d.sort_values(["DeliveryDate_sort", "PO-Line",
"ComponentArticle"], kind="stable")` of `allocate_by_delivery` (line 1721),
modelled by insertion sort, which is stable. -/
def sortDemands (l : List DemandRec) : List DemandRec :=
  List.insertionSort demandLe l

/-- One output row of `allocate_by_delivery`: the demand record plus the
`AvailableStart`, `Allocated` and `Short` columns. -/
structure AllocRow where
  demand : DemandRec
  availableStart : ℚ
  allocated : ℚ
  short : ℚ
deriving Repr, DecidableEq

/-- Status column of `allocate_by_delivery` (line 1741): OK iff the shortfall
is at most the epsilon 1e-9. -/
def statusOf (short : ℚ) : String :=
  if short ≤ 1 / 1000000000 then "OK" else "SHORT"

/-- Status of one allocation row. -/
def AllocRow.status (r : AllocRow) : String := statusOf r.short

/-- One iteration of the allocation loop of `allocate_by_delivery`
(lines 1726-1736): read the remaining quantity, allocate `min(available,
need)`, record `short = max(0, need - alloc)` and decrement the map. -/
def allocStep (rem : String → ℚ) (d : DemandRec) : (String → ℚ) × AllocRow :=
  let art := stripStr d.componentArticle
  let need := d.needQty
  let startAvail := rem art
  let alloc := min startAvail need
  let sh := max 0 (need - alloc)
  (fun a => if a = art then startAvail - alloc else rem a,
   ⟨d, startAvail, alloc, sh⟩)

/-- The allocation loop run over a list of demand records in order. -/
def processDemands (rem : String → ℚ) : List DemandRec → List AllocRow
  | [] => []
  | d :: ds =>
      let p := allocStep rem d
      p.2 :: processDemands p.1 ds

/-- The remaining-quantity map after processing a list of demand records. -/
def remAfter (rem : String → ℚ) : List DemandRec → String → ℚ
  | [] => rem
  | d :: ds => remAfter (allocStep rem d).1 ds

/-- The whole of `allocate_by_delivery` (app.py lines 1707-1742): initialise
the remaining map from the stock snapshot, sort the demand records by
(delivery date with NaT last, PO-line, component article) with a stable sort,
then run the greedy loop. -/
def allocateByDelivery (demands : List DemandRec) (stock : List StockRec) :
    List AllocRow :=
  processDemands (availOf stock) (sortDemands demands)

/-- Total shortfall of one PO line (app.py line 2206:
`alloc.groupby("PO-Line")["Short"].sum()`). -/
def totalShortFor (alloc : List AllocRow) (po : String) : ℚ :=
  ((alloc.filter (fun r => r.demand.poLine == po)).map (fun r => r.short)).sum

/-- Membership of a PO-line key in `small_short_pos` (app.py lines 2207-2211):
the key groups at least one allocation row and its summed shortfall lies in
the interval (0, 100]. -/
def smallShortMem (alloc : List AllocRow) (k : String) : Bool :=
  alloc.any (fun r => r.demand.poLine == k) &&
    decide (0 < totalShortFor alloc k) && decide (totalShortFor alloc k ≤ 100)

/-- Membership of a PO-line key in `low_avail_pos` (app.py lines 2151-2156):
some allocation row of that line saw an available-at-start below 100. -/
def lowAvailMem (alloc : List AllocRow) (k : String) : Bool :=
  alloc.any (fun r => r.demand.poLine == k && decide (r.availableStart < 100))

/-- Per-line aggregate status (app.py lines 2145-2149 and 2195): SHORT if any
record of the line is SHORT, OK otherwise, and blank for a line with no
allocation rows (the `fillna("")` after the groupby map). -/
def statusByPo (alloc : List AllocRow) (po : String) : String :=
  if (alloc.filter (fun r => r.demand.poLine == po)).isEmpty then ""
  else if (alloc.filter (fun r => r.demand.poLine == po)).any
    (fun r => r.status == "SHORT") then "SHORT" else "OK"

/-- The presentation flag `_flag_for_row` (app.py lines 2213-2223): purple for
a small shortfall, red for a short line, purple again for low remaining
availability, green for an OK line, blank otherwise. -/
def flagForRow (alloc : List AllocRow) (poLine status : String) : String :=
  let poKey := stripStr poLine
  if smallShortMem alloc poKey then "🟪"
  else if status == "SHORT" then "🟥"
  else if lowAvailMem alloc poKey then "🟪"
  else if status == "OK" then "🟩"
  else ""

/-- One row of the presentation view, restricted to the columns that
`apply_component_support_overrides` reads or writes. -/
structure ViewRow where
  poLine : String
  status : String
  shortDetail : String
  flag : String
deriving Repr, DecidableEq

/-- Lookup in the persisted override store: the store is a Python dict keyed
by stripped PO-line strings (`load_component_support`, line 285, and the
`key_map` of line 304), read with `.get(key, False)`.  A dict update is
modelled by appending a binding, so the lookup keeps the last binding. -/
def lookupOverride (ov : List (String × Bool)) (k : String) : Bool :=
  match ((ov.map (fun p => (stripStr p.1, p.2))).filter
    (fun p => p.1 == k)).getLast? with
  | some p => p.2
  | none => false

/-- Action of `apply_component_support_overrides` on one view row (app.py
lines 305-311): a row masked by a True override and a 🟪 flag gets detail
"Component Supported", status OK and flag 🟩. -/
def overrideRow (ov : List (String × Bool)) (r : ViewRow) : ViewRow :=
  if lookupOverride ov (stripStr r.poLine) && (stripStr r.flag == "🟪") then
    { r with shortDetail := "Component Supported", status := "OK", flag := "🟩" }
  else r

/-- The whole `apply_component_support_overrides` (app.py lines 298-312): an
empty override store returns the view unchanged, otherwise each row is passed
through `overrideRow`. -/
def applyComponentSupportOverrides (rows : List ViewRow)
    (ov : List (String × Bool)) : List ViewRow :=
  if ov.isEmpty then rows else rows.map (overrideRow ov)

/-- The main-view step that touches the override store (app.py lines
2227-2228): the persisted overrides are read and applied to the computed
view; this code path never writes the store. -/
def mainViewOverrideStep (rows : List ViewRow) (ov : List (String × Bool)) :
    List ViewRow × List (String × Bool) :=
  (applyComponentSupportOverrides rows ov, ov)

/-- The details-page re-validation (app.py lines 2727-2734): if the selected
PO line's stored override is True but that line's flag is no longer 🟪, the
override is rewritten to False (a dict update, modelled by appending a
binding that shadows the old one) and saved.  This runs only for the one
selected PO line. -/
def revalidateSupportOverride (ov : List (String × Bool))
    (selectedPo flag : String) : List (String × Bool) :=
  let key := stripStr selectedPo
  if lookupOverride ov key && !(stripStr flag == "🟪") then ov ++ [(key, false)]
  else ov

/-- The helper `norm_po` (app.py lines 81-84): strip the cell, drop every
non-digit character; if no digit remains, fall back to the stripped
original. -/
def normPo (v : String) : String :=
  let s := stripStr v
  let d := String.mk (s.toList.filter (·.isDigit))
  if d.toList.isEmpty then s else d

/-- One typed source row of an order table as `combine_excels` reads it
(app.py lines 854-859): the order-number, line and article cells as strings,
and the numeric cells after `_to_float` (which maps unparseable or missing
cells to 0). -/
structure SrcRow where
  po : String
  line : String
  article : String
  buyQty : ℚ
  qtyEA : ℚ
  openQty : ℚ
deriving Repr, DecidableEq

/-- The per-unit quantity column of `combine_excels` (line 860):
`qty_ea.where(buy_qty != 0, 0).div(buy_qty.where(buy_qty != 0, 1))
.mul(open_qty)`: zero when the buy quantity is zero, otherwise
(quantity-in-eaches / buy-quantity) times open-quantity. -/
def qtyPcs (r : SrcRow) : ℚ :=
  if r.buyQty = 0 then 0 else r.qtyEA / r.buyQty * r.openQty

/-- The composite PO-Line key (line 864): stripped order number, a dash, and
the stripped line number. -/
def poLineKey (r : SrcRow) : String :=
  stripStr r.po ++ "-" ++ stripStr r.line

/-- The acceptance filter of `combine_excels` (lines 876-877): the normalized
order number must be a non-empty string and the open quantity strictly
positive. -/
def rowAccepted (r : SrcRow) : Bool :=
  decide (0 < (normPo (stripStr r.po)).length) && decide (0 < r.openQty)

/-- Keep-first deduplication on the PO-Line key
(`drop_duplicates(subset=["PO-Line"])`, lines 878 and 884). -/
def dedupByPoLine : List SrcRow → List String → List SrcRow
  | [], _ => []
  | r :: rs, seen =>
      if poLineKey r ∈ seen then dedupByPoLine rs seen
      else r :: dedupByPoLine rs (poLineKey r :: seen)

/-- One source file's contribution in `combine_excels` (lines 854-879):
filter to accepted rows, then deduplicate by PO-Line keeping the first
occurrence.  Rows failing the filter are dropped silently. -/
def combineFileRows (rows : List SrcRow) : List SrcRow :=
  dedupByPoLine (rows.filter rowAccepted) []

/-- The merge over all readable source files (lines 881-885): concatenation
of the per-file results followed by another keep-first deduplication; with no
valid file the ingestion raises, modelled by `none`. -/
def combineExcels (files : List (List SrcRow)) : Option (List SrcRow) :=
  if files.isEmpty then none
  else some (dedupByPoLine (files.map combineFileRows).flatten [])

/-- The component categories of the BUCKETS constant (app.py line 56). -/
inductive Bucket
  | glass
  | wrap
  | blbl
  | lid
  | flbl
  | frg
deriving Repr, DecidableEq

/-- The bucket iteration order of the BUCKETS constant (app.py line 56). -/
def bucketsList : List Bucket := [.glass, .wrap, .blbl, .lid, .flbl, .frg]

/-- One extracted BOM entry: article code and quantity-per-assembly (`none`
when the candidate line carries no number after the marker phrase). -/
abbrev BomItem := String × Option ℚ

/-- The per-category entry lists of one order line (the inner dict
`{k: [] for k in BUCKETS}` of `parse_po_pdf_by_line`, line 918). -/
structure BucketMap where
  glass : List BomItem
  wrap : List BomItem
  blbl : List BomItem
  lid : List BomItem
  flbl : List BomItem
  frg : List BomItem
deriving Repr, DecidableEq

/-- Read one category list. -/
def BucketMap.get : BucketMap → Bucket → List BomItem
  | m, .glass => m.glass
  | m, .wrap => m.wrap
  | m, .blbl => m.blbl
  | m, .lid => m.lid
  | m, .flbl => m.flbl
  | m, .frg => m.frg

/-- Replace one category list. -/
def BucketMap.set : BucketMap → Bucket → List BomItem → BucketMap
  | m, .glass, l => { m with glass := l }
  | m, .wrap, l => { m with wrap := l }
  | m, .blbl, l => { m with blbl := l }
  | m, .lid, l => { m with lid := l }
  | m, .flbl, l => { m with flbl := l }
  | m, .frg, l => { m with frg := l }

/-- The empty per-line category map. -/
def emptyBuckets : BucketMap := ⟨[], [], [], [], [], []⟩

/-- Numeric value of a digit list (models Python `int` on a digit string). -/
def natOfDigits (cs : List Char) : ℕ :=
  cs.foldl (fun n c => n * 10 + (c.toNat - 48)) 0

/-- The helper `norm_line` (app.py lines 87-92): strip, drop non-digits; with
no digit return the stripped original, otherwise the digits with leading
zeros removed (`str(int(d))`). -/
def normLine (v : String) : String :=
  let s := stripStr v
  let d := s.toList.filter (·.isDigit)
  if d.isEmpty then s else toString (natOfDigits d)

/-- Abstraction of one text line of an order document, carrying exactly what
the regex layer of `parse_po_pdf_by_line` (app.py lines 931-949) extracts
from the raw text: either a line-header match of PO_LINE_HEADER_RE (its first
group, a five-digit identifier), or a body line with the result of the
COMPONENT_MARK_RE test, the classification of `classify_component`, the
first 7-9 digit token (ARTICLE_ANYWHERE_RE) and the last number after the
marker phrase (`_extract_qty_per_assembly`). -/
inductive PdfLine
  | header (lineId : String)
  | body (hasMark : Bool) (bucket : Option Bucket) (article : Option String)
      (qtyPer : Option ℚ)
deriving Repr, DecidableEq

/-- Update of the per-line bucket map `per_line[current][bucket]`
(defaultdict semantics, lines 918 and 950-953): the key is created on first
use, in encounter order, and the item is appended only when the exact
(article, quantity) pair is not already present. -/
def addItem (m : List (String × BucketMap)) (k : String) (b : Bucket)
    (it : BomItem) : List (String × BucketMap) :=
  match m with
  | [] => [(k, emptyBuckets.set b [it])]
  | p :: ps =>
      if p.1 == k then
        if it ∈ p.2.get b then p :: ps
        else (p.1, p.2.set b (p.2.get b ++ [it])) :: ps
      else p :: addItem ps k b it

/-- One iteration of the line loop of `parse_po_pdf_by_line` (lines 926-953):
a header line updates the current-line cursor; a body line contributes an
entry only when a cursor is set, the marker phrase is present, the
classification succeeded and an article token was found. -/
def parseStep (st : Option String × List (String × BucketMap))
    (ln : PdfLine) : Option String × List (String × BucketMap) :=
  match ln with
  | .header g => (some (normLine g), st.2)
  | .body mark bucket art qty =>
      match st.1 with
      | none => st
      | some cur =>
          if !mark then st
          else
            match bucket with
            | none => st
            | some b =>
                match art with
                | none => st
                | some a => (st.1, addItem st.2 cur b (a, qty))

/-- The main extraction loop of `parse_po_pdf_by_line` over all document
lines, starting with no current line and an empty map. -/
def parseMain (lines : List PdfLine) : List (String × BucketMap) :=
  (lines.foldl parseStep (none, [])).2

/-- Append items not already present, preserving order (the shared_items
accumulation of lines 958-962). -/
def dedupAppend (acc : List BomItem) : List BomItem → List BomItem
  | [] => acc
  | i :: is => if i ∈ acc then dedupAppend acc is else dedupAppend (acc ++ [i]) is

/-- The union of one category's items over all line keys, deduplicated by the
whole (article, quantity) pair, in discovery order (lines 958-962). -/
def sharedItemsFor (m : List (String × BucketMap)) (b : Bucket) : List BomItem :=
  m.foldl (fun acc p => dedupAppend acc (p.2.get b)) []

/-- The shared-order fallback of `parse_po_pdf_by_line` (lines 955-967): with
more than one line key, every line whose category list is empty receives a
copy of the category's shared items. -/
def propagateShared (m : List (String × BucketMap)) : List (String × BucketMap) :=
  if m.length ≤ 1 then m
  else
    bucketsList.foldl (fun acc b =>
      let shared := sharedItemsFor acc b
      if shared.isEmpty then acc
      else acc.map (fun p =>
        if (p.2.get b).isEmpty then (p.1, p.2.set b shared) else p)) m

/-- The whole of `parse_po_pdf_by_line` (app.py lines 917-969) over the
abstracted document lines. -/
def parsePoPdfByLine (lines : List PdfLine) : List (String × BucketMap) :=
  propagateShared (parseMain lines)

/-- One row of the persisted previous-view snapshot restricted to
CHANGE_VIEW_COLS (app.py lines 316-326); all tracked values are compared as
strings, so the fields are modelled as the rendered strings. -/
structure ViewSnapRow where
  poLine : String
  article : String
  qtyEA : String
  deliveryDate : String
  statisticalDate : String
  status : String
  shortDetail : String
  fsLot : String
  fsStatus : String
deriving Repr, DecidableEq

/-- The `_safe_str` helper (app.py lines 329-334): a missing value becomes the
empty string, anything else is rendered and stripped; with the fields already
rendered as strings only the strip remains. -/
def safeStr (s : String) : String := stripStr s

/-- The tracked field set TRACK_COLS (app.py lines 316-325), with the
accessor for each column. -/
def trackCols : List (String × (ViewSnapRow → String)) :=
  [("Article", fun r => r.article),
   ("QtyEA", fun r => r.qtyEA),
   ("DeliveryDate", fun r => r.deliveryDate),
   ("StatisticalDate", fun r => r.statisticalDate),
   ("Status", fun r => r.status),
   ("Short_Detail", fun r => r.shortDetail),
   ("FS_Lot", fun r => r.fsLot),
   ("FS_Status", fun r => r.fsStatus)]

/-- Whitespace tokenisation of a string (used to model the word-boundary
scanning of AVAIL_NUM_RE). -/
def wordsAux : List Char → List Char → List (List Char)
  | [], acc => if acc.isEmpty then [] else [acc.reverse]
  | c :: cs, acc =>
      if c.isWhitespace then
        if acc.isEmpty then wordsAux cs [] else acc.reverse :: wordsAux cs []
      else wordsAux cs (c :: acc)

/-- Numbers of the "avail N" mentions of a short-detail text, abstracting the
regex AVAIL_NUM_RE (app.py line 72) over whitespace-separated tokens: a token
reading "avail" followed by a token of digits and comma separators
contributes that number. -/
def availMentions : List (List Char) → List ℚ
  | [] => []
  | [_] => []
  | w :: n :: ws =>
      if String.mk w == "avail" && !(n.filter (·.isDigit)).isEmpty &&
          n.all (fun c => c.isDigit || c == ',') then
        (natOfDigits (n.filter (·.isDigit)) : ℚ) :: availMentions (n :: ws)
      else availMentions (n :: ws)

/-- The helper `_sum_avail_from_short_detail` (app.py lines 365-374): sum of
all "avail N" numeric mentions, zero when there are none. -/
def sumAvailFromShortDetail (s : String) : ℚ :=
  let nums := availMentions (wordsAux s.toList [])
  if nums.isEmpty then 0 else nums.sum

/-- The change-description helper `_label_change` (app.py lines 377-405). -/
def labelChange (field oldv newv : String) : String :=
  let f := stripStr field
  if f == "FS_Status" || f == "FS_Lot" then "FS changed"
  else if f == "Status" then "Status changed"
  else if f == "Short_Detail" then
    let oldSum := sumAvailFromShortDetail oldv
    let newSum := sumAvailFromShortDetail newv
    if 0 < oldSum ∨ 0 < newSum then
      if oldSum < newSum then "Availability increased"
      else if newSum < oldSum then "Availability decreased"
      else "Short detail changed"
    else "Short detail changed"
  else if f == "DeliveryDate" || f == "StatisticalDate" then "Date changed"
  else if f == "QtyEA" then "Qty changed"
  else if f == "Article" then "Article changed"
  else if f.isEmpty then "Changed"
  else f ++ " changed"

/-- One record of the change log (columns of `compute_change_log`,
line 441-450). -/
structure ChangeRec where
  runTS : ℕ
  poLine : String
  field : String
  oldVal : String
  newVal : String
  description : String
deriving Repr, DecidableEq

/-- The per-view row map of `compute_change_log` (lines 427-428): keyed by
the stripped PO-line string; a later row with the same key overwrites an
earlier one (Python dict comprehension). -/
def lookupSnapRow (v : List ViewSnapRow) (k : String) : Option ViewSnapRow :=
  (v.filter (fun r => stripStr r.poLine == k)).getLast?

/-- The sorted common key set of `compute_change_log` (line 429):
`sorted(set(prev) & set(cur))`, with strings ordered by code points. -/
def sortedCommonKeys (prev cur : List ViewSnapRow) : List String :=
  List.insertionSort (fun a b : String => a.toList ≤ b.toList)
    (((prev.map (fun r => stripStr r.poLine)).filter
      (fun k => k ∈ cur.map (fun r => stripStr r.poLine))).dedup)

/-- The per-key field comparison of `compute_change_log` (lines 432-450):
one change record per tracked column whose safe-string value differs. -/
def changeRowsFor (ts : ℕ) (k : String) (oldRow newRow : ViewSnapRow) :
    List ChangeRec :=
  trackCols.filterMap (fun tc =>
    let oldv := safeStr (tc.2 oldRow)
    let newv := safeStr (tc.2 newRow)
    if oldv ≠ newv then
      some ⟨ts, k, tc.1, oldv, newv, labelChange tc.1 oldv newv⟩
    else none)

/-- The whole of `compute_change_log` (app.py lines 408-455): empty or
missing previous view yields no records; otherwise the sorted common keys
are scanned and each tracked field compared by safe string value. -/
def computeChangeLog (cur prev : List ViewSnapRow) (ts : ℕ) : List ChangeRec :=
  if prev.isEmpty then []
  else
    ((sortedCommonKeys prev cur).map (fun k =>
      match lookupSnapRow prev k, lookupSnapRow cur k with
      | some oldRow, some newRow => changeRowsFor ts k oldRow newRow
      | _, _ => [])).flatten

/-! ### Helper lemmas -/

lemma charStrip_idem (l : List Char) : charStrip (charStrip l) = charStrip l := by
  unfold charStrip
  have h1 : List.dropWhile (fun c => c.isWhitespace)
      (List.rdropWhile (fun c => c.isWhitespace)
        (List.dropWhile (fun c => c.isWhitespace) l)) =
      List.rdropWhile (fun c => c.isWhitespace)
        (List.dropWhile (fun c => c.isWhitespace) l) := by
    obtain ⟨t, ht⟩ := List.rdropWhile_prefix (fun c => c.isWhitespace)
      (List.dropWhile (fun c => c.isWhitespace) l)
    have hA : List.dropWhile (fun c => c.isWhitespace)
        (List.dropWhile (fun c => c.isWhitespace) l) =
        List.dropWhile (fun c => c.isWhitespace) l :=
      List.dropWhile_idempotent _ _
    cases hB : List.rdropWhile (fun c => c.isWhitespace)
        (List.dropWhile (fun c => c.isWhitespace) l) with
    | nil => simp
    | cons x xs =>
        have hxA : List.dropWhile (fun c => c.isWhitespace) l = x :: (xs ++ t) := by
          rw [← ht, hB]
          simp
        have hx : x.isWhitespace = false := by
          by_contra hpx
          rw [Bool.not_eq_false] at hpx
          rw [hxA, List.dropWhile_cons_of_pos hpx] at hA
          have hle : (List.dropWhile (fun c => c.isWhitespace) (xs ++ t)).length ≤
              (xs ++ t).length :=
            (List.dropWhile_suffix _).length_le
          rw [hA] at hle
          simp only [List.length_cons, List.length_append] at hle
          omega
        exact List.dropWhile_cons_of_neg (by simp [hx])
  rw [h1, List.rdropWhile_idempotent]

lemma stripStr_idem (s : String) : stripStr (stripStr s) = stripStr s := by
  unfold stripStr
  have : (String.mk (charStrip s.toList)).toList = charStrip s.toList := rfl
  rw [this, charStrip_idem]

lemma allocStep_demand (rem : String → ℚ) (d : DemandRec) :
    (allocStep rem d).2.demand = d := rfl

lemma allocStep_alloc_add_short (rem : String → ℚ) (d : DemandRec) :
    (allocStep rem d).2.allocated + (allocStep rem d).2.short = d.needQty ∧
      0 ≤ (allocStep rem d).2.short := by
  unfold allocStep
  refine ⟨?_, le_max_left _ _⟩
  have h : min (rem (stripStr d.componentArticle)) d.needQty ≤ d.needQty :=
    min_le_right _ _
  simp only
  rw [max_eq_right (by linarith)]
  ring

lemma processDemands_row_spec (ds : List DemandRec) :
    ∀ (rem : String → ℚ) (row : AllocRow), row ∈ processDemands rem ds →
      row.allocated + row.short = row.demand.needQty ∧ 0 ≤ row.short := by
  induction ds with
  | nil =>
      intro rem row h
      simp [processDemands] at h
  | cons d tl ih =>
      intro rem row h
      rw [processDemands] at h
      rcases List.mem_cons.mp h with h1 | h2
      · subst h1
        simpa [allocStep_demand] using allocStep_alloc_add_short rem d
      · exact ih _ _ h2

lemma allocStep_rem_self (rem : String → ℚ) (d : DemandRec) :
    (allocStep rem d).1 (stripStr d.componentArticle) =
      rem (stripStr d.componentArticle) -
        min (rem (stripStr d.componentArticle)) d.needQty := by
  simp [allocStep]

lemma allocStep_rem_other (rem : String → ℚ) (d : DemandRec) (a : String)
    (h : a ≠ stripStr d.componentArticle) :
    (allocStep rem d).1 a = rem a := by
  simp [allocStep, h]

lemma sub_min_nonneg (r n : ℚ) : 0 ≤ r - min r n := by
  rcases le_total r n with h | h
  · simp [min_eq_left h]
  · simp only [min_eq_right h]
    linarith

/-- Sum of the allocated amounts over the rows whose (stripped) component
article equals the given one: the per-article draw from the shared pool. -/
def sumAllocFor (alloc : List AllocRow) (art : String) : ℚ :=
  ((alloc.filter (fun r => stripStr r.demand.componentArticle == art)).map
    (fun r => r.allocated)).sum

lemma sumAllocFor_nil (art : String) : sumAllocFor [] art = 0 := rfl

lemma sumAllocFor_cons (r : AllocRow) (rs : List AllocRow) (art : String) :
    sumAllocFor (r :: rs) art =
      (if stripStr r.demand.componentArticle = art then r.allocated else 0) +
        sumAllocFor rs art := by
  by_cases h : stripStr r.demand.componentArticle = art
  · simp [sumAllocFor, List.filter_cons, h]
  · simp [sumAllocFor, List.filter_cons, h]

lemma sumAllocFor_processDemands_le (ds : List DemandRec) :
    ∀ (rem : String → ℚ) (art : String), 0 ≤ rem art →
      sumAllocFor (processDemands rem ds) art ≤ rem art := by
  induction ds with
  | nil =>
      intro rem art h
      simpa [processDemands, sumAllocFor_nil] using h
  | cons d tl ih =>
      intro rem art h
      rw [processDemands, sumAllocFor_cons]
      by_cases hart : stripStr d.componentArticle = art
      · have hd : stripStr (allocStep rem d).2.demand.componentArticle = art := by
          rw [allocStep_demand]; exact hart
        rw [if_pos hd]
        have hrem : (allocStep rem d).1 art = rem art - min (rem art) d.needQty := by
          rw [← hart, allocStep_rem_self, hart]
        have hnn : 0 ≤ (allocStep rem d).1 art := by
          rw [hrem]; exact sub_min_nonneg _ _
        have htl := ih ((allocStep rem d).1) art hnn
        have halloc : (allocStep rem d).2.allocated = min (rem art) d.needQty := by
          simp [allocStep, hart]
        rw [halloc]
        rw [hrem] at htl
        linarith
      · have hd : ¬ stripStr (allocStep rem d).2.demand.componentArticle = art := by
          rw [allocStep_demand]; exact hart
        rw [if_neg hd]
        have hrem : (allocStep rem d).1 art = rem art :=
          allocStep_rem_other rem d art (fun he => hart he.symm)
        have htl := ih ((allocStep rem d).1) art (hrem ▸ h)
        rw [hrem] at htl
        linarith

lemma sumAllocFor_processDemands_le_of_mem (ds : List DemandRec) :
    ∀ (rem : String → ℚ) (art : String),
      (∃ d ∈ ds, stripStr d.componentArticle = art) →
      sumAllocFor (processDemands rem ds) art ≤ rem art := by
  induction ds with
  | nil =>
      rintro rem art ⟨d, hd, _⟩
      cases hd
  | cons d tl ih =>
      rintro rem art ⟨e, he, hea⟩
      rw [processDemands, sumAllocFor_cons]
      by_cases hart : stripStr d.componentArticle = art
      · have hd : stripStr (allocStep rem d).2.demand.componentArticle = art := by
          rw [allocStep_demand]; exact hart
        rw [if_pos hd]
        have hrem : (allocStep rem d).1 art = rem art - min (rem art) d.needQty := by
          rw [← hart, allocStep_rem_self, hart]
        have hnn : 0 ≤ (allocStep rem d).1 art := by
          rw [hrem]; exact sub_min_nonneg _ _
        have htl := sumAllocFor_processDemands_le tl ((allocStep rem d).1) art hnn
        have halloc : (allocStep rem d).2.allocated = min (rem art) d.needQty := by
          simp [allocStep, hart]
        rw [halloc]
        rw [hrem] at htl
        linarith
      · have hd : ¬ stripStr (allocStep rem d).2.demand.componentArticle = art := by
          rw [allocStep_demand]; exact hart
        rw [if_neg hd]
        have hrem : (allocStep rem d).1 art = rem art :=
          allocStep_rem_other rem d art (fun heq => hart heq.symm)
        have hetl : e ∈ tl := by
          rcases List.mem_cons.mp he with rfl | h2
          · exact absurd hea hart
          · exact h2
        have htl := ih ((allocStep rem d).1) art ⟨e, hetl, hea⟩
        rw [hrem] at htl
        linarith

lemma changeRowsFor_self (ts : ℕ) (k : String) (row : ViewSnapRow) :
    changeRowsFor ts k row row = [] := by
  simp [changeRowsFor, trackCols]

/-! ### Claim theorems -/

/-- C2: for every demand record in the allocation output of
`allocate_by_delivery`, the allocated and short amounts sum exactly to the
needed quantity, and the short amount is nonnegative. -/
theorem c2_alloc_plus_short_eq_needed (demands : List DemandRec)
    (stock : List StockRec) (row : AllocRow)
    (h : row ∈ allocateByDelivery demands stock) :
    row.allocated + row.short = row.demand.needQty ∧ 0 ≤ row.short :=
  processDemands_row_spec _ _ _ h

/-- Witness for C2 at a concrete input. -/
theorem c2_witness :
    (⟨⟨"41025-1", some 1, "FRG", "A", 60⟩, 100, 60, 0⟩ : AllocRow).allocated +
        (⟨⟨"41025-1", some 1, "FRG", "A", 60⟩, 100, 60, 0⟩ : AllocRow).short =
      (⟨⟨"41025-1", some 1, "FRG", "A", 60⟩, 100, 60, 0⟩ :
        AllocRow).demand.needQty ∧
      0 ≤ (⟨⟨"41025-1", some 1, "FRG", "A", 60⟩, 100, 60, 0⟩ : AllocRow).short := by
  have hmem : (⟨⟨"41025-1", some 1, "FRG", "A", 60⟩, 100, 60, 0⟩ : AllocRow) ∈
      allocateByDelivery [⟨"41025-1", some 1, "FRG", "A", 60⟩]
        [⟨"A", some 100, some 30, none, none⟩] := by
    norm_num [allocateByDelivery, sortDemands, List.insertionSort, processDemands,
      allocStep, availOf, availQty, orZero, stripStr, charStrip, List.filter]
  exact c2_alloc_plus_short_eq_needed _ _ _ hmem

/-- C3: for every component article referenced by some demand record, the sum
of the allocated amounts across all allocation rows for that article never
exceeds the article's snapshot availability (conservation). -/
theorem c3_conservation (demands : List DemandRec) (stock : List StockRec)
    (art : String) (h : ∃ d ∈ demands, stripStr d.componentArticle = art) :
    sumAllocFor (allocateByDelivery demands stock) art ≤ availOf stock art := by
  unfold allocateByDelivery
  apply sumAllocFor_processDemands_le_of_mem
  rcases h with ⟨d, hd, ha⟩
  exact ⟨d, (List.perm_insertionSort demandLe demands).mem_iff.mpr hd, ha⟩

/-- Witness for C3 at a concrete input. -/
theorem c3_witness :
    sumAllocFor (allocateByDelivery [⟨"41025-1", some 1, "FRG", "A", 60⟩]
        [⟨"A", some 100, some 30, none, none⟩]) "A" ≤
      availOf [⟨"A", some 100, some 30, none, none⟩] "A" :=
  c3_conservation _ _ _ ⟨⟨"41025-1", some 1, "FRG", "A", 60⟩, by decide, by decide⟩

/-- C9: Change Detection is idempotent on an unchanged view: for every view
and timestamp, `compute_change_log` of a view against itself produces no
change records, so a second run over an unchanged view appends nothing. -/
theorem c9_change_detection_idempotent (v : List ViewSnapRow) (ts : ℕ) :
    computeChangeLog v v ts = [] := by
  unfold computeChangeLog
  split
  · rfl
  · rw [List.flatten_eq_nil_iff]
    intro l hl
    rcases List.mem_map.mp hl with ⟨k, _, rfl⟩
    cases h : lookupSnapRow v k with
    | none => simp
    | some row => simp [changeRowsFor_self]

/-- C1 counterexample: a stock record on which the availability used by
`allocate_by_delivery` differs from the spec's on-hand minus allocated minus
both holds formula (the code does not subtract the Allocation column). -/
theorem c1_counterexample :
    availQty ⟨"A", some 10, some 5, some 1, some 2⟩ ≠
      specAvailQty ⟨"A", some 10, some 5, some 1, some 2⟩ := by
  norm_num [availQty, specAvailQty, orZero]

/-- C1 (amended): the derived available quantity from which the Allocation
Engine initialises its remaining-quantity map equals on-hand minus both
quality-hold quantities (allocated-elsewhere is fetched but not subtracted);
the remaining map is initialised from exactly this per-article value, the
first sorted demand record starts from it, and it may be negative and is not
clamped. -/
theorem c1_amended_availability :
    (∀ r : StockRec, availQty r =
      orZero r.qoh - orZero r.qcHoldQCI - orZero r.qcHoldQCH) ∧
    (∀ (stock : List StockRec) (r : StockRec) (art : String),
      (stock.filter (fun s => stripStr s.article == art)).getLast? = some r →
      availOf stock art = availQty r) ∧
    (∀ (demands : List DemandRec) (stock : List StockRec) (d : DemandRec)
      (rest : List DemandRec), sortDemands demands = d :: rest →
      allocateByDelivery demands stock =
        (⟨d, availOf stock (stripStr d.componentArticle),
            min (availOf stock (stripStr d.componentArticle)) d.needQty,
            max 0 (d.needQty -
              min (availOf stock (stripStr d.componentArticle)) d.needQty)⟩ :
          AllocRow) :: processDemands (allocStep (availOf stock) d).1 rest) ∧
    (availOf [⟨"A", some 0, some 0, some 5, none⟩] "A" = -5 ∧
      allocateByDelivery [⟨"P1-1", some 1, "FRG", "A", 10⟩]
          [⟨"A", some 0, some 0, some 5, none⟩] =
        [⟨⟨"P1-1", some 1, "FRG", "A", 10⟩, -5, -5, 15⟩]) := by
  refine ⟨fun r => rfl, ?_, ?_, ?_, ?_⟩
  · intro stock r art h
    simp [availOf, h]
  · intro demands stock d rest hsplit
    unfold allocateByDelivery
    rw [hsplit, processDemands]
    rfl
  · have hs : stripStr "A" = "A" := by decide
    norm_num [availOf, availQty, orZero, List.filter, hs]
  · have hs : stripStr "A" = "A" := by decide
    norm_num [allocateByDelivery, sortDemands, List.insertionSort,
      List.orderedInsert, processDemands, allocStep, availOf, availQty, orZero,
      List.filter, hs]

/-- Witness for C1 (amended) at a concrete input. -/
theorem c1_amended_witness :
    availOf [(⟨"A", some 10, some 5, some 1, some 2⟩ : StockRec)] "A" =
      availQty ⟨"A", some 10, some 5, some 1, some 2⟩ ∧
    allocateByDelivery [⟨"P9-1", some 3, "FRG", "A", 7⟩]
        [(⟨"A", some 10, some 5, some 1, some 2⟩ : StockRec)] =
      (⟨⟨"P9-1", some 3, "FRG", "A", 7⟩,
          availOf [(⟨"A", some 10, some 5, some 1, some 2⟩ : StockRec)]
            (stripStr "A"),
          min (availOf [(⟨"A", some 10, some 5, some 1, some 2⟩ : StockRec)]
            (stripStr "A")) 7,
          max 0 (7 -
            min (availOf [(⟨"A", some 10, some 5, some 1, some 2⟩ : StockRec)]
              (stripStr "A")) 7)⟩ : AllocRow) ::
        processDemands
          (allocStep (availOf [(⟨"A", some 10, some 5, some 1, some 2⟩ :
            StockRec)]) ⟨"P9-1", some 3, "FRG", "A", 7⟩).1 [] := by
  refine ⟨c1_amended_availability.2.1 _ ⟨"A", some 10, some 5, some 1, some 2⟩
    "A" (by decide), ?_⟩
  exact c1_amended_availability.2.2.1 _ _ ⟨"P9-1", some 3, "FRG", "A", 7⟩ []
    (by decide)

/-- Demand and stock records for the ordering example of C4. -/
def c4Stock : List StockRec := [⟨"A", some 100, none, none, none⟩]

/-- Earlier-due demand record of the C4 example. -/
def c4Line1 : DemandRec := ⟨"41025-1", some 1, "FRG", "A", 60⟩

/-- Later-due demand record of the C4 example. -/
def c4Line2 : DemandRec := ⟨"41025-2", some 2, "FRG", "A", 60⟩

/-- C4: the engine processes demand records sorted by (delivery date
ascending with missing dates last, then PO-line key, then component article),
the sort is stable (adjacent ties keep their relative order: any correctly
ordered pair of the input stays a sublist of the output), and on the concrete
example with stock A=100 and two competing 60-unit demands the earlier-due
line gets 60/short 0 (OK) and the later-due line gets 40/short 20 (SHORT)
even when the input order is reversed. -/
theorem c4_fifo_ordering :
    (∀ l : List DemandRec, (sortDemands l).Sorted demandLe) ∧
    (∀ l : List DemandRec, List.Perm (sortDemands l) l) ∧
    (∀ (a b : DemandRec) (l : List DemandRec), demandLe a b →
      List.Sublist [a, b] l → List.Sublist [a, b] (sortDemands l)) ∧
    allocateByDelivery [c4Line2, c4Line1] c4Stock =
      [⟨c4Line1, 100, 60, 0⟩, ⟨c4Line2, 40, 40, 20⟩] ∧
    (⟨c4Line1, 100, 60, 0⟩ : AllocRow).status = "OK" ∧
    (⟨c4Line2, 40, 40, 20⟩ : AllocRow).status = "SHORT" := by
  refine ⟨fun l => List.sorted_insertionSort demandLe l,
    fun l => List.perm_insertionSort demandLe l,
    fun a b l hab h => List.pair_sublist_insertionSort hab h, ?_, ?_, ?_⟩
  · norm_num [c4Stock, c4Line1, c4Line2, allocateByDelivery, sortDemands,
      List.insertionSort, List.orderedInsert, processDemands, allocStep,
      availOf, availQty, orZero, stripStr, charStrip, List.filter]
  · norm_num [AllocRow.status, statusOf]
  · norm_num [AllocRow.status, statusOf]

/-- Witness for C4 at a concrete input. -/
theorem c4_witness :
    List.Sublist [c4Line1, c4Line2] (sortDemands [c4Line1, c4Line2]) :=
  c4_fifo_ordering.2.2.1 c4Line1 c4Line2 [c4Line1, c4Line2] (by decide)
    (List.Sublist.refl _)

/-- Demand record of the C5 small-shortfall example. -/
def c5Demand : DemandRec := ⟨"P1-1", some 1, "FRG", "A", 150⟩

/-- Allocation output of the C5 example: one line needing 150 against a
stock of 100, leaving a total shortfall of 50 (small, in (0, 100]). -/
def c5Alloc : List AllocRow :=
  allocateByDelivery [c5Demand] [⟨"A", some 100, none, none, none⟩]

/-- View row of the C5 example, with status and flag computed by the
modelled pipeline. -/
def c5Row : ViewRow :=
  ⟨"P1-1", statusByPo c5Alloc "P1-1", "",
    flagForRow c5Alloc "P1-1" (statusByPo c5Alloc "P1-1")⟩

lemma c5Alloc_eval : c5Alloc = [⟨c5Demand, 100, 100, 50⟩] := by
  have hs : stripStr "A" = "A" := by decide
  norm_num [c5Alloc, c5Demand, allocateByDelivery, sortDemands,
    List.insertionSort, List.orderedInsert, processDemands, allocStep,
    availOf, availQty, orZero, List.filter, hs]

lemma c5Row_flag : c5Row.flag = "🟪" ∧ smallShortMem c5Alloc "P1-1" = true ∧
    lowAvailMem c5Alloc "P1-1" = false := by
  have h1 : smallShortMem c5Alloc "P1-1" = true := by
    rw [c5Alloc_eval]
    norm_num [smallShortMem, totalShortFor, List.filter, c5Demand]
  have h2 : lowAvailMem c5Alloc "P1-1" = false := by
    rw [c5Alloc_eval]
    norm_num [lowAvailMem, c5Demand]
  refine ⟨?_, h1, h2⟩
  show flagForRow c5Alloc "P1-1" (statusByPo c5Alloc "P1-1") = "🟪"
  have hp : stripStr "P1-1" = "P1-1" := by decide
  rw [flagForRow, hp, h1]
  rfl

/-- C5 counterexample: a PO line whose 🟪 flag comes from the small-shortfall
condition (not from low remaining availability) is still modified by the
manual supported override, so the override does not apply only to
low-remaining-availability lines. -/
theorem c5_counterexample :
    smallShortMem c5Alloc "P1-1" = true ∧
    lowAvailMem c5Alloc "P1-1" = false ∧
    c5Row.status = "SHORT" ∧
    applyComponentSupportOverrides [c5Row] [("P1-1", true)] ≠ [c5Row] := by
  obtain ⟨hflag, h1, h2⟩ := c5Row_flag
  refine ⟨h1, h2, ?_, ?_⟩
  · show statusByPo c5Alloc "P1-1" = "SHORT"
    rw [c5Alloc_eval]
    norm_num [statusByPo, List.filter, List.any, AllocRow.status, statusOf,
      c5Demand]
  · have hrow : overrideRow [("P1-1", true)] c5Row =
        { c5Row with shortDetail := "Component Supported", status := "OK",
                     flag := "🟩" } := by
      rw [overrideRow]
      rw [if_pos]
      rw [hflag]
      have : lookupOverride [("P1-1", true)] (stripStr c5Row.poLine) = true := by
        decide
      rw [this]
      decide
    intro heq
    rw [applyComponentSupportOverrides] at heq
    rw [if_neg (by decide), List.map_cons, List.map_nil, hrow] at heq
    have hh := List.head_eq_of_cons_eq heq
    have : ("🟩" : String) = c5Row.flag := congrArg ViewRow.flag hh
    rw [hflag] at this
    exact absurd this (by decide)

/-- C5 (amended): the manual supported override rewrites exactly the rows
whose flag is 🟪 — a flag shared by the small-shortfall and the
low-remaining-availability conditions — and leaves every row with any other
flag value (or with no True override) unchanged in flag, status and
detail. -/
theorem c5_amended_override_scope :
    (∀ (rows : List ViewRow) (ov : List (String × Bool)),
      applyComponentSupportOverrides rows ov = rows.map (overrideRow ov)) ∧
    (∀ (ov : List (String × Bool)) (r : ViewRow), stripStr r.flag ≠ "🟪" →
      overrideRow ov r = r) ∧
    (∀ (ov : List (String × Bool)) (r : ViewRow),
      lookupOverride ov (stripStr r.poLine) = false → overrideRow ov r = r) ∧
    (∀ (ov : List (String × Bool)) (r : ViewRow),
      lookupOverride ov (stripStr r.poLine) = true → stripStr r.flag = "🟪" →
      overrideRow ov r =
        { r with shortDetail := "Component Supported", status := "OK",
                 flag := "🟩" }) := by
  refine ⟨?_, ?_, ?_, ?_⟩
  · intro rows ov
    rw [applyComponentSupportOverrides]
    by_cases h : ov.isEmpty
    · rw [if_pos h]
      have hov : ov = [] := List.isEmpty_iff.mp h
      subst hov
      have hid : ∀ r : ViewRow, overrideRow [] r = r := by
        intro r
        rw [overrideRow]
        simp [lookupOverride]
      symm
      simpa using List.map_congr_left (fun r _ => hid r)
    · rw [if_neg h]
  · intro ov r h
    rw [overrideRow, if_neg]
    rw [Bool.and_eq_true, beq_iff_eq]
    rintro ⟨-, h2⟩
    exact h h2
  · intro ov r h
    rw [overrideRow, if_neg]
    rw [Bool.and_eq_true]
    rintro ⟨h1, -⟩
    rw [h] at h1
    cases h1
  · intro ov r h1 h2
    rw [overrideRow, if_pos]
    rw [Bool.and_eq_true, beq_iff_eq]
    exact ⟨h1, h2⟩

/-- Witness for C5 (amended) at concrete inputs. -/
theorem c5_amended_witness :
    overrideRow [("X-1", true)] ⟨"X-1", "SHORT", "d", "🟥"⟩ =
      ⟨"X-1", "SHORT", "d", "🟥"⟩ ∧
    overrideRow [("X-1", true)] ⟨"X-1", "SHORT", "d", "🟪"⟩ =
      ⟨"X-1", "OK", "Component Supported", "🟩"⟩ :=
  ⟨c5_amended_override_scope.2.1 [("X-1", true)] ⟨"X-1", "SHORT", "d", "🟥"⟩
    (by decide),
   c5_amended_override_scope.2.2.2 [("X-1", true)] ⟨"X-1", "SHORT", "d", "🟪"⟩
    (by decide) (by decide)⟩

/-- Override store of the C6 example: a persisted True override. -/
def c6Store : List (String × Bool) := [("P2-1", true)]

/-- View row of the C6 example: the same PO line now carries a red flag, so
it is not low-remaining-availability (nor small-shortfall) any more. -/
def c6Row : ViewRow := ⟨"P2-1", "SHORT", "stock short", "🟥"⟩

/-- C6 counterexample: a main-view run over a view in which the overridden PO
line no longer has the 🟪 flag leaves the persisted override still True — the
run does not re-validate or clear it (clearing happens only on the details
page of that line). -/
theorem c6_counterexample :
    stripStr c6Row.flag ≠ "🟪" ∧
    lookupOverride c6Store (stripStr c6Row.poLine) = true ∧
    (mainViewOverrideStep [c6Row] c6Store).2 = c6Store ∧
    lookupOverride (mainViewOverrideStep [c6Row] c6Store).2
      (stripStr c6Row.poLine) = true ∧
    applyComponentSupportOverrides [c6Row] c6Store = [c6Row] := by
  refine ⟨by decide, by decide, rfl, by decide, by decide⟩

lemma lookupOverride_append_last (ov : List (String × Bool)) (k : String)
    (b : Bool) (hk : stripStr k = k) : lookupOverride (ov ++ [(k, b)]) k = b := by
  rw [lookupOverride, List.map_append, List.filter_append]
  simp [hk]

/-- C6 (amended): the main-view run never writes the override store (a stale
override merely has no effect there, because the override only rewrites rows
flagged 🟪); the override for a PO line is cleared — set to False — only when
the details page for that line is rendered while its flag is no longer 🟪,
and the details-page re-validation changes nothing when the flag is still
🟪. -/
theorem c6_amended_lazy_revalidation :
    (∀ (rows : List ViewRow) (ov : List (String × Bool)),
      (mainViewOverrideStep rows ov).2 = ov) ∧
    (∀ (ov : List (String × Bool)) (r : ViewRow), stripStr r.flag ≠ "🟪" →
      overrideRow ov r = r) ∧
    (∀ (ov : List (String × Bool)) (selectedPo flag : String),
      stripStr flag ≠ "🟪" →
      lookupOverride (revalidateSupportOverride ov selectedPo flag)
        (stripStr selectedPo) = false) ∧
    (∀ (ov : List (String × Bool)) (selectedPo flag : String),
      stripStr flag = "🟪" →
      revalidateSupportOverride ov selectedPo flag = ov) := by
  refine ⟨fun rows ov => rfl, ?_, ?_, ?_⟩
  · intro ov r h
    rw [overrideRow, if_neg]
    rw [Bool.and_eq_true, beq_iff_eq]
    rintro ⟨-, h2⟩
    exact h h2
  · intro ov selectedPo flag h
    rw [revalidateSupportOverride]
    have hb : (stripStr flag == "🟪") = false := beq_eq_false_iff_ne.mpr h
    rw [hb]
    cases hlk : lookupOverride ov (stripStr selectedPo) with
    | true =>
        simp only [Bool.not_false, Bool.and_true, if_pos]
        exact lookupOverride_append_last ov (stripStr selectedPo) false
          (stripStr_idem selectedPo)
    | false =>
        simp only [Bool.false_and, Bool.not_false, Bool.and_true]
        rw [if_neg (by simp)]
        exact hlk
  · intro ov selectedPo flag h
    rw [revalidateSupportOverride]
    have hb : (stripStr flag == "🟪") = true := beq_iff_eq.mpr h
    rw [hb]
    simp

/-- Witness for C6 (amended) at concrete inputs. -/
theorem c6_amended_witness :
    lookupOverride (revalidateSupportOverride [("P3-1", true)] "P3-1" "🟥")
      (stripStr "P3-1") = false ∧
    revalidateSupportOverride [("P3-1", true)] "P3-1" "🟪" = [("P3-1", true)] :=
  ⟨c6_amended_lazy_revalidation.2.2.1 [("P3-1", true)] "P3-1" "🟥" (by decide),
   c6_amended_lazy_revalidation.2.2.2 [("P3-1", true)] "P3-1" "🟪" (by decide)⟩

/-- Source row of the C7 counterexample: an order number with no digit at
all and a positive open quantity. -/
def c7Row : SrcRow := ⟨"ABC", "1", "9001", 1, 1, 5⟩

/-- C7 counterexample: a row whose order-number field contains no digit —
stripping non-digits leaves the empty string — is nevertheless accepted and
survives ingestion, because `norm_po` falls back to the stripped original
when no digit remains. -/
theorem c7_counterexample :
    ((stripStr c7Row.po).toList.filter (fun c => c.isDigit)).isEmpty = true ∧
    rowAccepted c7Row = true ∧
    combineFileRows [c7Row] = [c7Row] := by
  refine ⟨by decide, by decide, by decide⟩

lemma normPo_length_pos (s : String) :
    0 < (normPo s).length ↔ 0 < (stripStr s).length := by
  have htl : (String.mk ((stripStr s).toList.filter (·.isDigit))).toList =
      (stripStr s).toList.filter (·.isDigit) := rfl
  simp only [normPo, htl]
  by_cases h : ((stripStr s).toList.filter (·.isDigit)).isEmpty
  · rw [if_pos h]
  · rw [if_neg h]
    have hne : (stripStr s).toList.filter (·.isDigit) ≠ [] := by
      simpa [List.isEmpty_iff] using h
    show 0 < ((stripStr s).toList.filter (·.isDigit)).length ↔
      0 < (stripStr s).length
    constructor
    · intro _
      obtain ⟨c, hc⟩ := List.exists_mem_of_ne_nil _ hne
      have hcs : c ∈ (stripStr s).toList := List.mem_of_mem_filter hc
      have hsne : (stripStr s).toList ≠ [] := List.ne_nil_of_mem hcs
      exact List.length_pos.mpr hsne
    · intro _
      exact List.length_pos.mpr hne

lemma dedupByPoLine_subset (rows : List SrcRow) :
    ∀ (seen : List String) (r : SrcRow), r ∈ dedupByPoLine rows seen →
      r ∈ rows := by
  induction rows with
  | nil =>
      intro seen r h
      cases h
  | cons x xs ih =>
      intro seen r h
      rw [dedupByPoLine] at h
      by_cases hx : poLineKey x ∈ seen
      · rw [if_pos hx] at h
        exact List.mem_cons_of_mem _ (ih _ _ h)
      · rw [if_neg hx] at h
        rcases List.mem_cons.mp h with rfl | h2
        · exact List.mem_cons_self _ _
        · exact List.mem_cons_of_mem _ (ih _ _ h2)

/-- C7 (amended): ingestion accepts a source row exactly when its stripped
order-number field is non-empty — the normalization falls back to the
stripped original when it holds no digit, so the digit content is not
required — and the open quantity is strictly positive; only accepted rows
can appear in the ingested output, the rest are dropped without error. -/
theorem c7_amended_acceptance :
    (∀ rows : List SrcRow,
      combineFileRows rows = dedupByPoLine (rows.filter rowAccepted) []) ∧
    (∀ r : SrcRow, rowAccepted r = true ↔
      (0 < (stripStr r.po).length ∧ 0 < r.openQty)) ∧
    (∀ (rows : List SrcRow) (r : SrcRow), r ∈ combineFileRows rows →
      rowAccepted r = true) := by
  refine ⟨fun rows => rfl, ?_, ?_⟩
  · intro r
    rw [rowAccepted, Bool.and_eq_true, decide_eq_true_eq, decide_eq_true_eq,
      normPo_length_pos, stripStr_idem]
  · intro rows r h
    have h2 : r ∈ rows.filter rowAccepted := dedupByPoLine_subset _ _ _ h
    exact List.of_mem_filter h2

/-- Witness for C7 (amended) at a concrete input. -/
theorem c7_amended_witness :
    rowAccepted ⟨" 123 ", "1", "9001", 1, 1, 5⟩ = true :=
  (c7_amended_acceptance.2.1 ⟨" 123 ", "1", "9001", 1, 1, 5⟩).mpr
    ⟨by decide, by decide⟩

/-- Document lines of the C8 counterexample: one order line header and two
candidate lines carrying the same article code with different
quantity-per-assembly values. -/
def c8Lines : List PdfLine :=
  [.header "00123",
   .body true (some .frg) (some "8801234") (some 4),
   .body true (some .frg) (some "8801234") (some 6)]

/-- C8 counterexample: extraction deduplicates by the whole (article,
quantity) pair, so the same article code appears twice in one PO line and
category when the per-assembly quantities differ — the entry list does have
duplicate article codes. -/
theorem c8_counterexample :
    parsePoPdfByLine c8Lines =
      [("123", ⟨[], [], [], [], [],
        [("8801234", some 4), ("8801234", some 6)]⟩)] ∧
    ¬ (((⟨[], [], [], [], [],
        [("8801234", some 4), ("8801234", some 6)]⟩ : BucketMap).get
          Bucket.frg).map Prod.fst).Nodup := by
  refine ⟨by decide, by decide⟩

/-- All six category lists of a bucket map are duplicate-free. -/
def NodupBM (bm : BucketMap) : Prop := ∀ b, (bm.get b).Nodup

lemma get_set_self (bm : BucketMap) (b : Bucket) (l : List BomItem) :
    (bm.set b l).get b = l := by
  cases b <;> rfl

lemma get_set_other (bm : BucketMap) (b b' : Bucket) (l : List BomItem)
    (h : b' ≠ b) : (bm.set b l).get b' = bm.get b' := by
  cases b <;> cases b' <;> first | rfl | exact absurd rfl h

lemma NodupBM_set (bm : BucketMap) (b : Bucket) (l : List BomItem)
    (hbm : NodupBM bm) (hl : l.Nodup) : NodupBM (bm.set b l) := by
  intro b'
  by_cases h : b' = b
  · subst h
    rw [get_set_self]
    exact hl
  · rw [get_set_other _ _ _ _ h]
    exact hbm b'

lemma emptyBuckets_nodup : NodupBM emptyBuckets := by
  intro b
  cases b <;> exact List.nodup_nil

lemma nodup_append_singleton {l : List BomItem} {a : BomItem} (hl : l.Nodup)
    (ha : a ∉ l) : (l ++ [a]).Nodup := by
  rw [List.nodup_append]
  exact ⟨hl, List.nodup_singleton a, fun x hx hxa => by
    rw [List.mem_singleton] at hxa
    subst hxa
    exact ha hx⟩

lemma addItem_nodup (m : List (String × BucketMap)) (k : String) (b : Bucket)
    (it : BomItem) (h : ∀ p ∈ m, NodupBM p.2) :
    ∀ p ∈ addItem m k b it, NodupBM p.2 := by
  induction m with
  | nil =>
      intro p hp
      rw [addItem] at hp
      rcases List.mem_singleton.mp hp with rfl
      exact NodupBM_set _ _ _ emptyBuckets_nodup (List.nodup_singleton it)
  | cons q qs ih =>
      intro p hp
      rw [addItem] at hp
      by_cases hk : q.1 == k
      · rw [if_pos hk] at hp
        by_cases hmem : it ∈ q.2.get b
        · rw [if_pos hmem] at hp
          exact h p hp
        · rw [if_neg hmem] at hp
          rcases List.mem_cons.mp hp with rfl | h2
          · exact NodupBM_set _ _ _ (h q (List.mem_cons_self _ _))
              (nodup_append_singleton (h q (List.mem_cons_self _ _) b) hmem)
          · exact h p (List.mem_cons_of_mem _ h2)
      · rw [if_neg hk] at hp
        rcases List.mem_cons.mp hp with rfl | h2
        · exact h p (List.mem_cons_self _ _)
        · exact ih (fun p' hp' => h p' (List.mem_cons_of_mem _ hp')) p h2

lemma parseStep_nodup (cur? : Option String)
    (m : List (String × BucketMap)) (ln : PdfLine)
    (h : ∀ p ∈ m, NodupBM p.2) :
    ∀ p ∈ (parseStep (cur?, m) ln).2, NodupBM p.2 := by
  cases ln with
  | header g => exact h
  | body mark bucket art qty =>
      cases cur? with
      | none => exact h
      | some cur =>
          cases mark with
          | false => exact h
          | true =>
              cases bucket with
              | none => exact h
              | some b =>
                  cases art with
                  | none => exact h
                  | some a => exact addItem_nodup m cur b (a, qty) h

lemma foldl_parseStep_nodup (lines : List PdfLine) :
    ∀ st : Option String × List (String × BucketMap),
      (∀ p ∈ st.2, NodupBM p.2) →
      ∀ p ∈ (lines.foldl parseStep st).2, NodupBM p.2 := by
  induction lines with
  | nil => exact fun st h => h
  | cons ln rest ih =>
      intro st h
      rw [List.foldl_cons]
      exact ih _ (parseStep_nodup st.1 st.2 ln h)

lemma dedupAppend_nodup (items : List BomItem) :
    ∀ acc : List BomItem, acc.Nodup → (dedupAppend acc items).Nodup := by
  induction items with
  | nil => exact fun acc h => h
  | cons i is ih =>
      intro acc h
      rw [dedupAppend]
      by_cases hm : i ∈ acc
      · rw [if_pos hm]
        exact ih acc h
      · rw [if_neg hm]
        exact ih _ (nodup_append_singleton h hm)

lemma sharedItemsFor_nodup (m : List (String × BucketMap)) (b : Bucket) :
    (sharedItemsFor m b).Nodup := by
  rw [sharedItemsFor]
  suffices hgen : ∀ (l : List (String × BucketMap)) (acc : List BomItem),
      acc.Nodup →
      (l.foldl (fun acc p => dedupAppend acc (p.2.get b)) acc).Nodup by
    exact hgen m [] List.nodup_nil
  intro l
  induction l with
  | nil => exact fun acc h => h
  | cons q qs ih =>
      intro acc h
      rw [List.foldl_cons]
      exact ih _ (dedupAppend_nodup _ _ h)

lemma propagateShared_nodup (m : List (String × BucketMap))
    (h : ∀ p ∈ m, NodupBM p.2) :
    ∀ p ∈ propagateShared m, NodupBM p.2 := by
  rw [propagateShared]
  by_cases hm : m.length ≤ 1
  · rw [if_pos hm]
    exact h
  · rw [if_neg hm]
    suffices hgen : ∀ (bs : List Bucket) (acc : List (String × BucketMap)),
        (∀ p ∈ acc, NodupBM p.2) →
        ∀ p ∈ bs.foldl (fun acc b =>
          let shared := sharedItemsFor acc b
          if shared.isEmpty then acc
          else acc.map (fun p =>
            if (p.2.get b).isEmpty then (p.1, p.2.set b shared) else p)) acc,
          NodupBM p.2 by
      exact hgen bucketsList m h
    intro bs
    induction bs with
    | nil => exact fun acc hacc => hacc
    | cons b rest ih =>
        intro acc hacc
        rw [List.foldl_cons]
        apply ih
        by_cases hsh : (sharedItemsFor acc b).isEmpty
        · simpa [hsh] using hacc
        · simp only [hsh, if_neg]
          intro p hp
          simp only [Bool.false_eq_true, if_false, List.mem_map] at hp
          obtain ⟨q, hq, rfl⟩ := hp
          by_cases hqe : (q.2.get b).isEmpty
          · rw [if_pos hqe]
            exact NodupBM_set _ _ _ (hacc q hq) (sharedItemsFor_nodup acc b)
          · rw [if_neg hqe]
            exact hacc q hq

/-- C8 (amended): after extraction, for every PO line and component category
the entry list contains no duplicate (article code, quantity-per-assembly)
pairs — deduplication, both during extraction and in shared-order fallback
propagation, is by the whole pair, so an article code can repeat when its
per-assembly quantities differ. -/
theorem c8_amended_no_duplicate_pairs (lines : List PdfLine) (k : String)
    (bm : BucketMap) (h : (k, bm) ∈ parsePoPdfByLine lines) (b : Bucket) :
    (bm.get b).Nodup := by
  have h0 : ∀ p ∈ parseMain lines, NodupBM p.2 := by
    rw [parseMain]
    exact foldl_parseStep_nodup lines (none, []) (by intro p hp; cases hp)
  exact propagateShared_nodup _ h0 (k, bm) h b

/-- Witness for C8 (amended) at a concrete input. -/
theorem c8_amended_witness :
    ((⟨[], [], [], [], [],
      [("8801234", some 4), ("8801234", some 6)]⟩ : BucketMap).get
        Bucket.frg).Nodup :=
  c8_amended_no_duplicate_pairs c8Lines "123"
    ⟨[], [], [], [], [], [("8801234", some 4), ("8801234", some 6)]⟩
    (by decide) Bucket.frg

lemma processDemands_append (xs ys : List DemandRec) :
    ∀ rem : String → ℚ, processDemands rem (xs ++ ys) =
      processDemands rem xs ++ processDemands (remAfter rem xs) ys := by
  induction xs with
  | nil => intro rem; rfl
  | cons d tl ih =>
      intro rem
      show (allocStep rem d).2 :: processDemands (allocStep rem d).1 (tl ++ ys) =
        processDemands rem (d :: tl) ++ processDemands (remAfter rem (d :: tl)) ys
      rw [ih]
      rfl

lemma remAfter_append (xs ys : List DemandRec) :
    ∀ rem : String → ℚ, remAfter rem (xs ++ ys) = remAfter (remAfter rem xs) ys := by
  induction xs with
  | nil => intro rem; rfl
  | cons d tl ih =>
      intro rem
      rw [List.cons_append, remAfter, remAfter]
      exact ih _

lemma remAfter_untouched (xs : List DemandRec) :
    ∀ (rem : String → ℚ) (art : String),
      (∀ d ∈ xs, stripStr d.componentArticle ≠ art) →
      remAfter rem xs art = rem art := by
  induction xs with
  | nil => intro rem art _; rfl
  | cons d tl ih =>
      intro rem art h
      rw [remAfter]
      rw [ih _ _ (fun e he => h e (List.mem_cons_of_mem _ he))]
      exact allocStep_rem_other rem d art (h d (List.mem_cons_self _ _)).symm

lemma processDemands_zero_alloc (ds : List DemandRec) :
    ∀ (rem : String → ℚ) (art : String), rem art = 0 →
      (∀ d ∈ ds, 0 ≤ d.needQty) →
      ∀ row ∈ processDemands rem ds,
        stripStr row.demand.componentArticle = art → row.allocated = 0 := by
  induction ds with
  | nil =>
      intro rem art _ _ row hrow
      exact absurd hrow (List.not_mem_nil _)
  | cons d tl ih =>
      intro rem art h0 hnn row hrow hart
      rw [processDemands] at hrow
      have hrem2 : (allocStep rem d).1 art = 0 := by
        by_cases hdd : stripStr d.componentArticle = art
        · rw [← hdd, allocStep_rem_self, hdd, h0,
            min_eq_left (hnn d (List.mem_cons_self _ _))]
          ring
        · rw [allocStep_rem_other rem d art (fun heq => hdd heq.symm)]
          exact h0
      rcases List.mem_cons.mp hrow with rfl | h2
      · show min (rem (stripStr d.componentArticle)) d.needQty = 0
        have hdd : stripStr d.componentArticle = art := hart
        rw [hdd, h0, min_eq_left (hnn d (List.mem_cons_self _ _))]
      · exact ih _ _ hrem2 (fun e he => hnn e (List.mem_cons_of_mem _ he))
          row h2 hart

/-- C10: when an article's initial derived availability is negative, the
first sorted demand record for that article receives that negative value as
its allocated amount and a short amount strictly greater than its needed
quantity; afterwards, the remaining availability for the article is exactly
zero and every later demand record for it receives zero allocation. -/
theorem c10_negative_availability (demands : List DemandRec)
    (stock : List StockRec) (art : String) (pre : List DemandRec)
    (d : DemandRec) (post : List DemandRec)
    (hsplit : sortDemands demands = pre ++ d :: post)
    (hpre : ∀ e ∈ pre, stripStr e.componentArticle ≠ art)
    (hd : stripStr d.componentArticle = art)
    (hneg : availOf stock art < 0)
    (hnn : ∀ e ∈ demands, 0 ≤ e.needQty) :
    allocateByDelivery demands stock =
      processDemands (availOf stock) pre ++
        (allocStep (remAfter (availOf stock) pre) d).2 ::
          processDemands (allocStep (remAfter (availOf stock) pre) d).1 post ∧
    (allocStep (remAfter (availOf stock) pre) d).2.allocated =
      availOf stock art ∧
    (allocStep (remAfter (availOf stock) pre) d).2.short =
      d.needQty - availOf stock art ∧
    d.needQty < (allocStep (remAfter (availOf stock) pre) d).2.short ∧
    remAfter (availOf stock) (pre ++ [d]) art = 0 ∧
    (∀ r ∈ processDemands (allocStep (remAfter (availOf stock) pre) d).1 post,
      stripStr r.demand.componentArticle = art → r.allocated = 0) := by
  have hnn' : ∀ e ∈ sortDemands demands, 0 ≤ e.needQty := fun e he =>
    hnn e ((List.perm_insertionSort demandLe demands).mem_iff.mp he)
  have hdm : d ∈ sortDemands demands := by
    rw [hsplit]
    exact List.mem_append_right _ (List.mem_cons_self _ _)
  have hdn : 0 ≤ d.needQty := hnn' d hdm
  have hrem1 : remAfter (availOf stock) pre art = availOf stock art :=
    remAfter_untouched pre (availOf stock) art hpre
  have halloc : (allocStep (remAfter (availOf stock) pre) d).2.allocated =
      availOf stock art := by
    show min (remAfter (availOf stock) pre (stripStr d.componentArticle))
      d.needQty = availOf stock art
    rw [hd, hrem1, min_eq_left (by linarith)]
  have hshort : (allocStep (remAfter (availOf stock) pre) d).2.short =
      d.needQty - availOf stock art := by
    show max 0 (d.needQty -
      min (remAfter (availOf stock) pre (stripStr d.componentArticle))
        d.needQty) = d.needQty - availOf stock art
    rw [hd, hrem1, min_eq_left (by linarith), max_eq_right (by linarith)]
  have hsgt : d.needQty < (allocStep (remAfter (availOf stock) pre) d).2.short := by
    rw [hshort]
    linarith
  have hrem2 : (allocStep (remAfter (availOf stock) pre) d).1 art = 0 := by
    rw [← hd, allocStep_rem_self, hd, hrem1, min_eq_left (by linarith)]
    ring
  have hremfinal : remAfter (availOf stock) (pre ++ [d]) art = 0 := by
    rw [remAfter_append]
    show remAfter (allocStep (remAfter (availOf stock) pre) d).1 [] art = 0
    exact hrem2
  refine ⟨?_, halloc, hshort, hsgt, hremfinal, ?_⟩
  · unfold allocateByDelivery
    rw [hsplit, processDemands_append]
    congr 1
  · intro r hr hra
    exact processDemands_zero_alloc post _ art hrem2
      (fun e he => hnn' e (by
        rw [hsplit]
        exact List.mem_append_right _ (List.mem_cons_of_mem _ he))) r hr hra

/-- Stock snapshot of the C10 example: on-hand 0 with a quality hold of 5,
so the derived availability of article A is -5. -/
def c10Stock : List StockRec := [⟨"A", some 0, some 0, some 5, none⟩]

/-- First demand record of the C10 example. -/
def c10D1 : DemandRec := ⟨"P4-1", some 1, "FRG", "A", 10⟩

/-- Second demand record of the C10 example. -/
def c10D2 : DemandRec := ⟨"P4-2", some 2, "FRG", "A", 7⟩

/-- Witness for C10 at a concrete input. -/
theorem c10_witness :
    allocateByDelivery [c10D1, c10D2] c10Stock =
      processDemands (availOf c10Stock) [] ++
        (allocStep (remAfter (availOf c10Stock) []) c10D1).2 ::
          processDemands (allocStep (remAfter (availOf c10Stock) []) c10D1).1
            [c10D2] ∧
    (allocStep (remAfter (availOf c10Stock) []) c10D1).2.allocated =
      availOf c10Stock "A" ∧
    (allocStep (remAfter (availOf c10Stock) []) c10D1).2.short =
      c10D1.needQty - availOf c10Stock "A" ∧
    c10D1.needQty < (allocStep (remAfter (availOf c10Stock) []) c10D1).2.short ∧
    remAfter (availOf c10Stock) ([] ++ [c10D1]) "A" = 0 ∧
    (∀ r ∈ processDemands (allocStep (remAfter (availOf c10Stock) []) c10D1).1
        [c10D2],
      stripStr r.demand.componentArticle = "A" → r.allocated = 0) := by
  have hneg : availOf c10Stock "A" < 0 := by
    have hs : stripStr "A" = "A" := by decide
    norm_num [c10Stock, availOf, availQty, orZero, List.filter, hs]
  exact c10_negative_availability [c10D1, c10D2] c10Stock "A" [] c10D1 [c10D2]
    (by decide) (fun e he => absurd he (List.not_mem_nil e)) (by decide) hneg
    (by decide)

end MaterialReview
